import Mathlib

/-! Formal model of the pose-reconciliation core of
cartographer_ros/set_initpose_main.cc (RobotnikAutomation/cartographer_ros).

The callback move_base_simple_callback (1) finishes the current trajectory,
post-incrementing a process-wide trajectory-id counter before inspecting the
service result, (2) reads the origin pose of trajectory 0 by dereferencing
the begin-of-trajectory iterator without any emptiness check, (3) recovers
the height of the Rviz 2D pose hint by scanning all submap origins for the
one closest in the horizontal plane, starting from min_dist = 1e6, and
(4) composes traj_ref_tf.inverse() * map_tf as the relative initial pose.

Real-valued coordinates are modelled over ℚ (exact arithmetic).  The C++
code compares Euclidean lengths (delta_pos.length() < min_dist) where every
compared quantity is nonnegative and the chain of stored minima starts from
the constant 1e6; comparing squared lengths against squared bounds is
therefore exactly equivalent, so the model tracks squared distances
(distSq, with bigSq = (10^6)^2 = 10^12 as the squared sentinel).  The tf2
types are modelled structurally: tf2::Transform is a 3x3 basis matrix plus
an origin vector, Transform.inverse transposes the basis and maps the
negated origin through it, and composition multiplies bases and applies the
left transform to the right origin. -/

namespace SetInitpose

/-- Three-dimensional vector over ℚ, modelling tf2::Vector3. -/
structure Vec3 where
  x : ℚ
  y : ℚ
  z : ℚ
  deriving DecidableEq

/-- Three-by-three matrix over ℚ, modelling tf2::Matrix3x3 (the rotation basis). -/
structure Mat3 where
  m00 : ℚ
  m01 : ℚ
  m02 : ℚ
  m10 : ℚ
  m11 : ℚ
  m12 : ℚ
  m20 : ℚ
  m21 : ℚ
  m22 : ℚ
  deriving DecidableEq

/-- Componentwise vector addition. -/
def addV (u v : Vec3) : Vec3 :=
  ⟨u.x + v.x, u.y + v.y, u.z + v.z⟩

/-- Componentwise vector negation. -/
def negV (v : Vec3) : Vec3 :=
  ⟨-v.x, -v.y, -v.z⟩

/-- Matrix-vector application. -/
def matVec (m : Mat3) (v : Vec3) : Vec3 :=
  ⟨m.m00 * v.x + m.m01 * v.y + m.m02 * v.z,
   m.m10 * v.x + m.m11 * v.y + m.m12 * v.z,
   m.m20 * v.x + m.m21 * v.y + m.m22 * v.z⟩

/-- Matrix multiplication. -/
def matMul (a b : Mat3) : Mat3 :=
  ⟨a.m00 * b.m00 + a.m01 * b.m10 + a.m02 * b.m20,
   a.m00 * b.m01 + a.m01 * b.m11 + a.m02 * b.m21,
   a.m00 * b.m02 + a.m01 * b.m12 + a.m02 * b.m22,
   a.m10 * b.m00 + a.m11 * b.m10 + a.m12 * b.m20,
   a.m10 * b.m01 + a.m11 * b.m11 + a.m12 * b.m21,
   a.m10 * b.m02 + a.m11 * b.m12 + a.m12 * b.m22,
   a.m20 * b.m00 + a.m21 * b.m10 + a.m22 * b.m20,
   a.m20 * b.m01 + a.m21 * b.m11 + a.m22 * b.m21,
   a.m20 * b.m02 + a.m21 * b.m12 + a.m22 * b.m22⟩

/-- Matrix transpose. -/
def transp (m : Mat3) : Mat3 :=
  ⟨m.m00, m.m10, m.m20, m.m01, m.m11, m.m21, m.m02, m.m12, m.m22⟩

/-- Identity matrix. -/
def idM : Mat3 := ⟨1, 0, 0, 0, 1, 0, 0, 0, 1⟩

/-- Rigid transform, modelling tf2::Transform: a rotation basis and an origin. -/
structure Transform where
  basis : Mat3
  origin : Vec3
  deriving DecidableEq

/-- Identity transform. -/
def idT : Transform := ⟨idM, ⟨0, 0, 0⟩⟩

/-- Composition of transforms, modelling tf2 operator*: the combined basis is
the product of the bases and the combined origin is the left transform applied
to the right origin. -/
def tmul (a b : Transform) : Transform :=
  ⟨matMul a.basis b.basis, addV (matVec a.basis b.origin) a.origin⟩

/-- Inverse as computed by tf2::Transform::inverse(): the basis is transposed
and the origin is the transposed basis applied to the negated origin. -/
def tf2Inverse (t : Transform) : Transform :=
  ⟨transp t.basis, matVec (transp t.basis) (negV t.origin)⟩

/-- Orthogonality of a basis matrix, the algebraic rendering of the data-model
invariant that the rotation component is normalized (a rotation matrix derived
from a unit quaternion is orthogonal). -/
def isOrtho (m : Mat3) : Prop :=
  matMul (transp m) m = idM ∧ matMul m (transp m) = idM

instance (m : Mat3) : Decidable (isOrtho m) :=
  inferInstanceAs (Decidable (matMul (transp m) m = idM ∧ matMul m (transp m) = idM))

/-- Squared horizontal distance between the hint origin h and a submap origin
s: the code forms delta_pos = submap_origin - map_tf.getOrigin(), zeroes its z
component, and takes its Euclidean length; the square of that length is
(s.x - h.x)^2 + (s.y - h.y)^2. -/
def distSq (h s : Vec3) : ℚ :=
  (s.x - h.x) ^ 2 + (s.y - h.y) ^ 2

/-- Squared sentinel: the code initializes min_dist to 1e6, so squared
comparisons start from 10^12. -/
def bigSq : ℚ := 10 ^ 12

/-- One iteration of the submap scan.  The accumulator carries the candidate
height (initially the hint z, overwritten by map_tf.getOrigin().setZ) and the
current squared minimum distance; the update fires exactly when the squared
horizontal distance is strictly below the current minimum, mirroring
delta_pos.length() < min_dist. -/
def hrStep (h : Vec3) (acc : ℚ × ℚ) (s : Vec3) : ℚ × ℚ :=
  if distSq h s < acc.2 then (s.z, distSq h s) else acc

/-- Height recovery: the loop over GetAllSubmapPoses() in
move_base_simple_callback.  Only the z component of the hint origin can
change; x, y and the basis pass through untouched. -/
def heightRecover (hint : Transform) (subs : List Vec3) : Transform :=
  ⟨hint.basis,
   ⟨hint.origin.x, hint.origin.y,
    (subs.foldl (hrStep hint.origin) (hint.origin.z, bigSq)).1⟩⟩

/-- Relative initial pose: traj_ref_tf.inverse() * map_tf. -/
def relativeTransform (p r : Transform) : Transform :=
  tmul (tf2Inverse r) p

/-- Failure modes of the reconciliation.  Only invalidIteratorDeref is
realized by the code (dereferencing BeginOfTrajectory(0) when trajectory 0
has no node is undefined behaviour, modelled as this error).  The
constructors emptyMap and missingReferenceOrigin render the EmptyMapError
and MissingReferenceOriginError values that the specification prescribes;
no code path produces them. -/
inductive ReconcileError where
  | invalidIteratorDeref
  | emptyMap
  | missingReferenceOrigin
  deriving DecidableEq

/-- Pose-reconciliation part of the callback: fetch the first node pose of
trajectory 0 (dereferenced without an emptiness check — an empty node list
is the modelled undefined dereference), run height recovery over the submap
snapshot, and compose the relative initial pose.  There is no emptiness check
on either collection and no error value other than the modelled crash. -/
def callbackCore (hint : Transform) (nodes : List Transform) (subs : List Vec3) :
    Except ReconcileError Transform :=
  match nodes with
  | [] => Except.error ReconcileError.invalidIteratorDeref
  | r :: _ => Except.ok (relativeTransform (heightRecover hint subs) r)

/-- Whole-callback control flow.  The global counter current_trajectory_id_
is post-incremented while assembling the FinishTrajectory request, so the
requested id is the old counter value and the stored counter is one larger,
both fixed before any service result is inspected.  A failed service call
(callOk = false) is only logged; the callback aborts (returns no action)
exactly when the response status is not OK.  Returns (new counter value,
requested trajectory id, optional reconciliation outcome). -/
def callbackFull (ctr : Int) (callOk statusOk : Bool) (hint : Transform)
    (nodes : List Transform) (subs : List Vec3) :
    Int × Int × Option (Except ReconcileError Transform) :=
  let requestedId := ctr
  let ctr1 := ctr + 1
  if !statusOk then (ctr1, requestedId, none)
  else (ctr1, requestedId, some (callbackCore hint nodes subs))

/-! Helper lemmas about the matrix and vector algebra. -/

theorem matMul_assoc (a b c : Mat3) : matMul (matMul a b) c = matMul a (matMul b c) := by
  unfold matMul
  rw [Mat3.mk.injEq]
  refine ⟨by ring, by ring, by ring, by ring, by ring, by ring, by ring, by ring, by ring⟩

theorem matMul_id_left (a : Mat3) : matMul idM a = a := by
  unfold matMul idM
  rw [Mat3.mk.injEq]
  refine ⟨by ring, by ring, by ring, by ring, by ring, by ring, by ring, by ring, by ring⟩

theorem matVec_id (v : Vec3) : matVec idM v = v := by
  unfold matVec idM
  rw [Vec3.mk.injEq]
  refine ⟨by ring, by ring, by ring⟩

theorem matVec_matMul (a b : Mat3) (v : Vec3) :
    matVec (matMul a b) v = matVec a (matVec b v) := by
  unfold matVec matMul
  rw [Vec3.mk.injEq]
  refine ⟨by ring, by ring, by ring⟩

theorem matVec_addV (m : Mat3) (u v : Vec3) :
    matVec m (addV u v) = addV (matVec m u) (matVec m v) := by
  unfold matVec addV
  rw [Vec3.mk.injEq]
  refine ⟨by ring, by ring, by ring⟩

theorem matVec_add_neg (m : Mat3) (v : Vec3) :
    addV (matVec m v) (matVec m (negV v)) = ⟨0, 0, 0⟩ := by
  unfold matVec negV addV
  rw [Vec3.mk.injEq]
  refine ⟨by ring, by ring, by ring⟩

theorem addV_neg_left (v : Vec3) : addV (negV v) v = ⟨0, 0, 0⟩ := by
  unfold addV negV
  rw [Vec3.mk.injEq]
  refine ⟨by ring, by ring, by ring⟩

theorem addV_neg_add (v w : Vec3) : addV (addV v (negV w)) w = v := by
  unfold addV negV
  rw [Vec3.mk.injEq]
  refine ⟨by ring, by ring, by ring⟩

/-! Helper lemmas about the submap scan. -/

/-- When every remaining squared distance is at least the current minimum,
the scan leaves the accumulator untouched (the comparison is strict). -/
theorem foldl_no_update (h : Vec3) (acc : ℚ × ℚ) (l : List Vec3)
    (hge : ∀ g ∈ l, acc.2 ≤ distSq h g) :
    l.foldl (hrStep h) acc = acc := by
  induction l with
  | nil => rfl
  | cons a t ih =>
    have ha : acc.2 ≤ distSq h a := hge a (List.mem_cons_self a t)
    have hstep : hrStep h acc a = acc := by
      unfold hrStep
      rw [if_neg (not_lt.mpr ha)]
    rw [List.foldl_cons, hstep]
    exact ih fun g hg => hge g (List.mem_cons_of_mem a hg)

/-- When f is a strict minimizer of the squared distance among the scanned
submaps and beats the initial minimum, the scan ends on the pair
(f.z, distSq h f). -/
theorem foldl_unique_min (h f : Vec3) :
    ∀ (l : List Vec3) (acc : ℚ × ℚ), f ∈ l →
      (∀ g ∈ l, g ≠ f → distSq h f < distSq h g) →
      distSq h f < acc.2 →
      l.foldl (hrStep h) acc = (f.z, distSq h f) := by
  intro l
  induction l with
  | nil =>
    intro acc hf _ _
    exact absurd hf (List.not_mem_nil f)
  | cons a t ih =>
    intro acc hf hmin hacc
    by_cases haf : a = f
    · subst haf
      have hstep : hrStep h acc a = (a.z, distSq h a) := by
        unfold hrStep
        rw [if_pos hacc]
      rw [List.foldl_cons, hstep]
      refine foldl_no_update h _ t fun g hg => ?_
      by_cases hga : g = a
      · subst hga
        exact le_refl _
      · exact le_of_lt (hmin g (List.mem_cons_of_mem a hg) hga)
    · have hft : f ∈ t := by
        rcases List.mem_cons.mp hf with hfa | hft
        · exact absurd hfa.symm haf
        · exact hft
      have hmint : ∀ g ∈ t, g ≠ f → distSq h f < distSq h g :=
        fun g hg => hmin g (List.mem_cons_of_mem a hg)
      have hfa : distSq h f < distSq h a :=
        hmin a (List.mem_cons_self a t) haf
      rw [List.foldl_cons]
      by_cases hda : distSq h a < acc.2
      · have hstep : hrStep h acc a = (a.z, distSq h a) := by
          unfold hrStep
          rw [if_pos hda]
        rw [hstep]
        exact ih _ hft hmint hfa
      · have hstep : hrStep h acc a = acc := by
          unfold hrStep
          rw [if_neg hda]
        rw [hstep]
        exact ih _ hft hmint hacc

/-! Claim theorems. -/

/-- C1, counterexample.  The claim initializes the best distance to positive
infinity, so the single fragment at horizontal distance 2e6 would be selected
and the recovered z would be 42.  The code initializes min_dist to 1e6: the
fragment is never selected and the hint z stays 0. -/
theorem far_fragment_counterexample :
    (heightRecover (Transform.mk idM (Vec3.mk 0 0 0)) [Vec3.mk 2000000 0 42]).origin.z = 0 ∧
    (heightRecover (Transform.mk idM (Vec3.mk 0 0 0)) [Vec3.mk 2000000 0 42]).origin.z ≠ 42 := by
  constructor
  · norm_num [heightRecover, hrStep, distSq, bigSq]
  · norm_num [heightRecover, hrStep, distSq, bigSq]

/-- C1, amended.  For every hint and snapshot containing a fragment f that is
strictly closer (in the horizontal plane) to the hint than every other
fragment and whose horizontal distance beats the sentinel 1e6 (squared:
distSq below 10^12), height recovery returns a pose whose z is exactly f.z. -/
theorem height_recovery_nearest (hint : Transform) (subs : List Vec3) (f : Vec3)
    (hf : f ∈ subs)
    (hmin : ∀ g ∈ subs, g ≠ f → distSq hint.origin f < distSq hint.origin g)
    (hbig : distSq hint.origin f < bigSq) :
    (heightRecover hint subs).origin.z = f.z := by
  unfold heightRecover
  rw [foldl_unique_min hint.origin f subs _ hf hmin hbig]

/-- C1 witness: the nearest-height example of the specification, fragments at
(0,0,z=5) and (10,0,z=9) with the hint at (1,0); the recovered z is 5. -/
theorem height_recovery_nearest_witness :
    (Vec3.mk 0 0 5 ∈ [Vec3.mk 0 0 5, Vec3.mk 10 0 9]) ∧
    (∀ g ∈ [Vec3.mk 0 0 5, Vec3.mk 10 0 9], g ≠ Vec3.mk 0 0 5 →
      distSq (Transform.mk idM (Vec3.mk 1 0 0)).origin (Vec3.mk 0 0 5) <
        distSq (Transform.mk idM (Vec3.mk 1 0 0)).origin g) ∧
    distSq (Transform.mk idM (Vec3.mk 1 0 0)).origin (Vec3.mk 0 0 5) < bigSq ∧
    (heightRecover (Transform.mk idM (Vec3.mk 1 0 0))
      [Vec3.mk 0 0 5, Vec3.mk 10 0 9]).origin.z = 5 := by
  have hmem : Vec3.mk 0 0 5 ∈ [Vec3.mk 0 0 5, Vec3.mk 10 0 9] :=
    List.mem_cons_self _ _
  have hmin : ∀ g ∈ [Vec3.mk 0 0 5, Vec3.mk 10 0 9], g ≠ Vec3.mk 0 0 5 →
      distSq (Transform.mk idM (Vec3.mk 1 0 0)).origin (Vec3.mk 0 0 5) <
        distSq (Transform.mk idM (Vec3.mk 1 0 0)).origin g := by
    norm_num [distSq, Vec3.mk.injEq]
  have hbig : distSq (Transform.mk idM (Vec3.mk 1 0 0)).origin (Vec3.mk 0 0 5) < bigSq := by
    norm_num [distSq, bigSq]
  exact ⟨hmem, hmin, hbig,
    height_recovery_nearest (Transform.mk idM (Vec3.mk 1 0 0))
      [Vec3.mk 0 0 5, Vec3.mk 10 0 9] (Vec3.mk 0 0 5) hmem hmin hbig⟩

/-- C2, counterexample.  On an empty submap snapshot the code does not fail:
height recovery returns the hint unchanged (silently, exactly what the claim
excludes) and the callback proceeds to the relative-pose composition. -/
theorem empty_map_counterexample :
    heightRecover (Transform.mk idM (Vec3.mk 2 3 0)) [] = Transform.mk idM (Vec3.mk 2 3 0) ∧
    (callbackCore (Transform.mk idM (Vec3.mk 2 3 0)) [idT] []).isOk = true :=
  ⟨rfl, rfl⟩

/-- C2, amended.  For every hint, height recovery over an empty snapshot
returns the hint unchanged, and the callback carries on: with any reference
node present it composes the relative pose from the unchanged hint. -/
theorem empty_map_passthrough (hint r : Transform) (rest : List Transform) :
    heightRecover hint [] = hint ∧
    callbackCore hint (r :: rest) [] = Except.ok (relativeTransform hint r) := by
  have h1 : heightRecover hint [] = hint := rfl
  refine ⟨h1, ?_⟩
  show Except.ok (relativeTransform (heightRecover hint []) r) = _
  rw [h1]

/-- C3, counterexample.  With no recorded pose on trajectory 0 the callback
dereferences the begin-of-trajectory iterator with no prior check: the
modelled outcome is the undefined-behaviour dereference, not the
MissingReferenceOriginError the claim prescribes. -/
theorem missing_origin_counterexample :
    callbackCore (Transform.mk idM (Vec3.mk 2 3 0)) [] [] =
      Except.error ReconcileError.invalidIteratorDeref ∧
    ReconcileError.invalidIteratorDeref ≠ ReconcileError.missingReferenceOrigin :=
  ⟨rfl, by decide⟩

/-- C3, amended.  For every hint and submap snapshot, when trajectory 0 has
no recorded pose the callback performs an unguarded iterator dereference
(modelled as invalidIteratorDeref); no explicit precondition check exists and
no MissingReferenceOriginError value is ever produced. -/
theorem missing_origin_deref (hint : Transform) (subs : List Vec3) :
    callbackCore hint [] subs = Except.error ReconcileError.invalidIteratorDeref :=
  rfl

/-- C4.  For every hint and nonempty snapshot, height recovery is total (the
embedded function always returns a Transform) and preserves the x and y
origin components and the rotation basis of the hint exactly; only z can
change. -/
theorem height_recovery_preserves_planar (hint : Transform) (subs : List Vec3)
    (hne : subs ≠ []) :
    (heightRecover hint subs).origin.x = hint.origin.x ∧
    (heightRecover hint subs).origin.y = hint.origin.y ∧
    (heightRecover hint subs).basis = hint.basis :=
  ⟨rfl, rfl, rfl⟩

/-- C4 witness at a concrete hint and a one-fragment snapshot. -/
theorem height_recovery_preserves_planar_witness :
    (([Vec3.mk 0 0 1] : List Vec3) ≠ []) ∧
    ((heightRecover (Transform.mk idM (Vec3.mk 2 3 0)) [Vec3.mk 0 0 1]).origin.x =
        (Transform.mk idM (Vec3.mk 2 3 0)).origin.x ∧
      (heightRecover (Transform.mk idM (Vec3.mk 2 3 0)) [Vec3.mk 0 0 1]).origin.y =
        (Transform.mk idM (Vec3.mk 2 3 0)).origin.y ∧
      (heightRecover (Transform.mk idM (Vec3.mk 2 3 0)) [Vec3.mk 0 0 1]).basis =
        (Transform.mk idM (Vec3.mk 2 3 0)).basis) := by
  have hne : ([Vec3.mk 0 0 1] : List Vec3) ≠ [] := by
    intro hcon
    exact List.cons_ne_nil _ _ hcon
  exact ⟨hne,
    height_recovery_preserves_planar (Transform.mk idM (Vec3.mk 2 3 0)) [Vec3.mk 0 0 1] hne⟩

/-- C5.  For every corrected pose P and reference origin R with orthogonal
(normalized) basis: the composed output is exactly inverse(R) * P, the tf2
inverse is a two-sided algebraic inverse of R, and its translation is the
inverse rotation applied to the negated original translation. -/
theorem relative_pose_exact_inverse (P R : Transform) (h : isOrtho R.basis) :
    relativeTransform P R = tmul (tf2Inverse R) P ∧
    tmul (tf2Inverse R) R = idT ∧
    tmul R (tf2Inverse R) = idT ∧
    (tf2Inverse R).origin = matVec (tf2Inverse R).basis (negV R.origin) := by
  refine ⟨rfl, ?_, ?_, rfl⟩
  · show Transform.mk (matMul (transp R.basis) R.basis)
      (addV (matVec (transp R.basis) R.origin) (matVec (transp R.basis) (negV R.origin))) = idT
    rw [h.1, matVec_add_neg]
    rfl
  · show Transform.mk (matMul R.basis (transp R.basis))
      (addV (matVec R.basis (matVec (transp R.basis) (negV R.origin))) R.origin) = idT
    rw [h.2, ← matVec_matMul, h.2, matVec_id, addV_neg_left]
    rfl

/-- C5 witness at the identity reference origin and a translated pose. -/
theorem relative_pose_exact_inverse_witness :
    isOrtho idT.basis ∧
    (relativeTransform (Transform.mk idM (Vec3.mk 2 3 7)) idT =
        tmul (tf2Inverse idT) (Transform.mk idM (Vec3.mk 2 3 7)) ∧
      tmul (tf2Inverse idT) idT = idT ∧
      tmul idT (tf2Inverse idT) = idT ∧
      (tf2Inverse idT).origin = matVec (tf2Inverse idT).basis (negV idT.origin)) := by
  have ho : isOrtho idT.basis := by
    refine ⟨?_, ?_⟩ <;> norm_num [matMul, transp, idT, idM, Mat3.mk.injEq]
  exact ⟨ho, relative_pose_exact_inverse (Transform.mk idM (Vec3.mk 2 3 7)) idT ho⟩

/-- C6.  Round trip: for every pose P and reference origin R with orthogonal
basis, composing R with the produced relative pose reproduces P exactly (the
model computes over ℚ, so the exact identity holds, which is within every
positive tolerance, in particular 1e-9 componentwise); and with R the
identity pose the relative pose equals P. -/
theorem round_trip_reproduces (P R : Transform) (h : isOrtho R.basis) :
    tmul R (relativeTransform P R) = P ∧ (R = idT → relativeTransform P R = P) := by
  constructor
  · show Transform.mk (matMul R.basis (matMul (transp R.basis) P.basis))
      (addV (matVec R.basis
        (addV (matVec (transp R.basis) P.origin) (matVec (transp R.basis) (negV R.origin))))
        R.origin) = P
    rw [← matMul_assoc, h.2, matMul_id_left, matVec_addV, ← matVec_matMul, ← matVec_matMul,
      h.2, matVec_id, matVec_id, addV_neg_add]
  · intro hR
    subst hR
    show Transform.mk (matMul (transp idM) P.basis)
      (addV (matVec (transp idM) P.origin) (matVec (transp idM) (negV (Vec3.mk 0 0 0)))) = P
    have htr : transp idM = idM := rfl
    rw [htr, matMul_id_left, matVec_id, matVec_id]
    obtain ⟨pb, ⟨px, py, pz⟩⟩ := P
    unfold addV negV
    rw [Transform.mk.injEq, Vec3.mk.injEq]
    refine ⟨rfl, by ring, by ring, by ring⟩

/-- C6 witness with a quarter-turn reference origin and a translated pose. -/
theorem round_trip_reproduces_witness :
    isOrtho (Transform.mk (Mat3.mk 0 (-1) 0 1 0 0 0 0 1) (Vec3.mk 1 2 3)).basis ∧
    (tmul (Transform.mk (Mat3.mk 0 (-1) 0 1 0 0 0 0 1) (Vec3.mk 1 2 3))
        (relativeTransform (Transform.mk idM (Vec3.mk 2 3 7))
          (Transform.mk (Mat3.mk 0 (-1) 0 1 0 0 0 0 1) (Vec3.mk 1 2 3))) =
        Transform.mk idM (Vec3.mk 2 3 7) ∧
      (Transform.mk (Mat3.mk 0 (-1) 0 1 0 0 0 0 1) (Vec3.mk 1 2 3) = idT →
        relativeTransform (Transform.mk idM (Vec3.mk 2 3 7))
          (Transform.mk (Mat3.mk 0 (-1) 0 1 0 0 0 0 1) (Vec3.mk 1 2 3)) =
          Transform.mk idM (Vec3.mk 2 3 7))) := by
  have ho : isOrtho (Transform.mk (Mat3.mk 0 (-1) 0 1 0 0 0 0 1) (Vec3.mk 1 2 3)).basis := by
    refine ⟨?_, ?_⟩ <;> norm_num [matMul, transp, idM, Mat3.mk.injEq]
  exact ⟨ho, round_trip_reproduces (Transform.mk idM (Vec3.mk 2 3 7))
    (Transform.mk (Mat3.mk 0 (-1) 0 1 0 0 0 0 1) (Vec3.mk 1 2 3)) ho⟩

/-- C7.  Two fragments at equal horizontal distance from the hint (both
within the sentinel): strict inequality in the comparison keeps the first
one encountered, so the recovered z is the z of the first fragment. -/
theorem tie_first_wins (hint : Transform) (f1 f2 : Vec3)
    (heq : distSq hint.origin f1 = distSq hint.origin f2)
    (hlt : distSq hint.origin f1 < bigSq) :
    (heightRecover hint [f1, f2]).origin.z = f1.z := by
  unfold heightRecover
  rw [List.foldl_cons, List.foldl_cons, List.foldl_nil]
  have hstep1 : hrStep hint.origin (hint.origin.z, bigSq) f1 = (f1.z, distSq hint.origin f1) := by
    unfold hrStep
    rw [if_pos hlt]
  have hstep2 : hrStep hint.origin (f1.z, distSq hint.origin f1) f2 =
      (f1.z, distSq hint.origin f1) := by
    unfold hrStep
    rw [if_neg (by rw [← heq]; exact lt_irrefl _)]
  rw [hstep1, hstep2]

/-- C7 witness: fragments at (1,0,z=5) and (-1,0,z=9), hint at the origin;
both are at squared distance 1 and the first one determines z = 5. -/
theorem tie_first_wins_witness :
    distSq (Transform.mk idM (Vec3.mk 0 0 0)).origin (Vec3.mk 1 0 5) =
      distSq (Transform.mk idM (Vec3.mk 0 0 0)).origin (Vec3.mk (-1) 0 9) ∧
    distSq (Transform.mk idM (Vec3.mk 0 0 0)).origin (Vec3.mk 1 0 5) < bigSq ∧
    (heightRecover (Transform.mk idM (Vec3.mk 0 0 0))
      [Vec3.mk 1 0 5, Vec3.mk (-1) 0 9]).origin.z = 5 := by
  have heq : distSq (Transform.mk idM (Vec3.mk 0 0 0)).origin (Vec3.mk 1 0 5) =
      distSq (Transform.mk idM (Vec3.mk 0 0 0)).origin (Vec3.mk (-1) 0 9) := by
    norm_num [distSq]
  have hlt : distSq (Transform.mk idM (Vec3.mk 0 0 0)).origin (Vec3.mk 1 0 5) < bigSq := by
    norm_num [distSq, bigSq]
  exact ⟨heq, hlt,
    tie_first_wins (Transform.mk idM (Vec3.mk 0 0 0)) (Vec3.mk 1 0 5) (Vec3.mk (-1) 0 9) heq hlt⟩

/-- C8.  End-to-end scenario of the specification: hint (2,3,0) with identity
rotation, fragments (0,0,1), (2,3,7), (5,5,2), identity reference origin.
The corrected pose is (2,3,7) with identity rotation and the relative pose
equals the corrected pose. -/
theorem endToEnd_concrete :
    heightRecover (Transform.mk idM (Vec3.mk 2 3 0))
      [Vec3.mk 0 0 1, Vec3.mk 2 3 7, Vec3.mk 5 5 2] = Transform.mk idM (Vec3.mk 2 3 7) ∧
    callbackCore (Transform.mk idM (Vec3.mk 2 3 0)) [idT]
      [Vec3.mk 0 0 1, Vec3.mk 2 3 7, Vec3.mk 5 5 2] =
      Except.ok (Transform.mk idM (Vec3.mk 2 3 7)) := by
  have h1 : heightRecover (Transform.mk idM (Vec3.mk 2 3 0))
      [Vec3.mk 0 0 1, Vec3.mk 2 3 7, Vec3.mk 5 5 2] = Transform.mk idM (Vec3.mk 2 3 7) := by
    norm_num [heightRecover, hrStep, distSq, bigSq, Transform.mk.injEq, Vec3.mk.injEq]
  have h2 : relativeTransform (Transform.mk idM (Vec3.mk 2 3 7)) idT =
      Transform.mk idM (Vec3.mk 2 3 7) := by
    norm_num [relativeTransform, tmul, tf2Inverse, transp, matMul, matVec, addV, negV,
      idT, idM, Transform.mk.injEq, Vec3.mk.injEq, Mat3.mk.injEq]
  refine ⟨h1, ?_⟩
  show Except.ok (relativeTransform (heightRecover (Transform.mk idM (Vec3.mk 2 3 0))
    [Vec3.mk 0 0 1, Vec3.mk 2 3 7, Vec3.mk 5 5 2]) idT) = _
  rw [h1, h2]

/-- C9.  The scan starts from the finite sentinel min_dist = 1e6 rather than
positive infinity: for every nonempty snapshot in which every fragment is at
squared horizontal distance at least 10^12 (distance at least 1e6) from the
hint, no fragment is ever selected and height recovery returns the hint
unchanged. -/
theorem far_fragments_leave_height (hint : Transform) (subs : List Vec3)
    (hne : subs ≠ []) (hfar : ∀ s ∈ subs, bigSq ≤ distSq hint.origin s) :
    heightRecover hint subs = hint := by
  unfold heightRecover
  rw [foldl_no_update hint.origin _ subs hfar]

/-- C9 witness: a single fragment at exactly distance 1e6 is not selected. -/
theorem far_fragments_leave_height_witness :
    (([Vec3.mk 1000000 0 5] : List Vec3) ≠ []) ∧
    (∀ s ∈ [Vec3.mk 1000000 0 5],
      bigSq ≤ distSq (Transform.mk idM (Vec3.mk 0 0 0)).origin s) ∧
    heightRecover (Transform.mk idM (Vec3.mk 0 0 0)) [Vec3.mk 1000000 0 5] =
      Transform.mk idM (Vec3.mk 0 0 0) := by
  have hne : ([Vec3.mk 1000000 0 5] : List Vec3) ≠ [] := by
    intro hcon
    exact List.cons_ne_nil _ _ hcon
  have hfar : ∀ s ∈ [Vec3.mk 1000000 0 5],
      bigSq ≤ distSq (Transform.mk idM (Vec3.mk 0 0 0)).origin s := by
    norm_num [distSq, bigSq]
  exact ⟨hne, hfar,
    far_fragments_leave_height (Transform.mk idM (Vec3.mk 0 0 0)) [Vec3.mk 1000000 0 5] hne hfar⟩

/-- C10.  On every callback invocation the trajectory-id counter advances by
exactly one and the finish request carries the old counter value, regardless
of whether the finish-trajectory service call succeeded or its status is OK;
in particular the counter still advances when the status is not OK and the
callback aborts with no reconciliation outcome. -/
theorem counter_always_increments (ctr : Int) (callOk statusOk : Bool)
    (hint : Transform) (nodes : List Transform) (subs : List Vec3) :
    (callbackFull ctr callOk statusOk hint nodes subs).1 = ctr + 1 ∧
    (callbackFull ctr callOk statusOk hint nodes subs).2.1 = ctr ∧
    (callbackFull ctr callOk false hint nodes subs).2.2 = none := by
  refine ⟨?_, ?_, rfl⟩
  · cases statusOk <;> rfl
  · cases statusOk <;> rfl

end SetInitpose
